import Mathlib

set_option autoImplicit false

/-!
Verification of the installation-registry and provisioning-pipeline core of
`idf-im-lib`: a shallow embedding of `src/idf_config.rs`,
`src/version_manager.rs`, `src/utils.rs` (`with_retry`) and `src/lib.rs`
(`verify_file_checksum`, `download_file`, `shallow_clone`), together with
proofs and refutations of the spec's claims about them.
-/

/-! ## Data model (`src/idf_config.rs`) -/

/-- One installation record (`IdfInstallation` in `src/idf_config.rs`). -/
structure IdfInstallation where
  activation_script : String
  id : String
  idf_tools_path : String
  name : String
  path : String
  python : String
deriving DecidableEq, Repr

/-- The registry (`IdfConfig` in `src/idf_config.rs`). -/
structure IdfConfig where
  git_path : String
  idf_installed : List IdfInstallation
  idf_selected_id : String
deriving DecidableEq, Repr

/-- The matching rule used by select / rename / remove:
`install.id == identifier || install.name == identifier`. -/
def matchesIdent (identifier : String) (install : IdfInstallation) : Bool :=
  install.id == identifier || install.name == identifier

/-- `IdfConfig::get_selected_installation`: first installation whose `id`
equals `idf_selected_id`. -/
def get_selected_installation (config : IdfConfig) : Option IdfInstallation :=
  config.idf_installed.find? (fun install => install.id == config.idf_selected_id)

/-- Replace the first element satisfying `p` by its image under `f`
(the effect of Rust's `iter_mut().find(...)` followed by a field write);
`none` when no element matches. -/
def updateFirst {α : Type} (p : α → Bool) (f : α → α) : List α → Option (List α)
  | [] => none
  | x :: xs => if p x then some (f x :: xs) else (updateFirst p f xs).map (fun ys => x :: ys)

/-- Remove the first element satisfying `p`, returning it and the remaining
list; `none` when no element matches (Rust's `position` + `Vec::remove`). -/
def removeFirst {α : Type} (p : α → Bool) : List α → Option (α × List α)
  | [] => none
  | x :: xs => if p x then some (x, xs) else (removeFirst p xs).map (fun r => (r.1, x :: r.2))

/-- `IdfConfig::update_installation_name`: rename the first installation
matching `identifier` by id or name; returns the new state and whether a
match was found. -/
def update_installation_name (config : IdfConfig) (identifier : String)
    (new_name : String) : IdfConfig × Bool :=
  match updateFirst (matchesIdent identifier)
      (fun install => { install with name := new_name }) config.idf_installed with
  | some installed => ({ config with idf_installed := installed }, true)
  | none => (config, false)

/-- `IdfConfig::select_installation`: set `idf_selected_id` to the id of the
first installation matching `identifier` by id or name. -/
def select_installation (config : IdfConfig) (identifier : String) : IdfConfig × Bool :=
  match config.idf_installed.find? (matchesIdent identifier) with
  | some install => ({ config with idf_selected_id := install.id }, true)
  | none => (config, false)

/-- `IdfConfig::remove_installation`: remove the first installation matching
`identifier` by id or name, clearing `idf_selected_id` when the removed
installation's id was the selected one. -/
def remove_installation (config : IdfConfig) (identifier : String) : IdfConfig × Bool :=
  match removeFirst (matchesIdent identifier) config.idf_installed with
  | some r =>
      ({ config with
          idf_installed := r.2,
          idf_selected_id :=
            if config.idf_selected_id == r.1.id then "" else config.idf_selected_id },
        true)
  | none => (config, false)

/-- `IdfConfig::to_file`, state level: when a file already exists at the
target path its parsed content `existing` is loaded and its `idf_installed`
is appended (`Vec::extend`) to the in-memory registry's `idf_installed`
before serialization.  The result is both the mutated `self` and the
structure written to disk. -/
def to_file (self : IdfConfig) (existing : Option IdfConfig) : IdfConfig :=
  match existing with
  | some existing_config =>
      { self with idf_installed := self.idf_installed ++ existing_config.idf_installed }
  | none => self

/-! Sample data used by concrete counterexamples. -/

def sampleInstallA : IdfInstallation :=
  { activation_script := "/tmp/a/activate.sh", id := "idA", idf_tools_path := "/tmp/a/tools",
    name := "nameA", path := "/tmp/a/esp-idf", python := "/tmp/a/python" }

def sampleInstallB : IdfInstallation :=
  { activation_script := "/tmp/b/activate.sh", id := "idB", idf_tools_path := "/tmp/b/tools",
    name := "nameB", path := "/tmp/b/esp-idf", python := "/tmp/b/python" }

def configA : IdfConfig :=
  { git_path := "/usr/bin/gitA", idf_installed := [sampleInstallA], idf_selected_id := "idA" }

def configB : IdfConfig :=
  { git_path := "/usr/bin/gitB", idf_installed := [sampleInstallB], idf_selected_id := "idB" }

/-! ## C1: merge-on-write order -/

/-- C1 counterexample: persisting registry A over an existing registry B does
NOT produce B's installations followed by A's — the code appends B's entries
after A's (`self.idf_installed.extend(existing_version)`), so at this
concrete input the written list differs from `B ++ A`. -/
theorem c1_counterexample :
    ¬ ((to_file configA (some configB)).idf_installed
        = configB.idf_installed ++ configA.idf_installed
      ∧ (to_file configA (some configB)).idf_selected_id = configA.idf_selected_id) := by
  decide

/-- C1 (amended): persisting registry A to a path already containing
registry B writes a registry whose `idf_installed` is A's installations
followed by B's (not B's followed by A's), whose `idf_selected_id` is A's,
and whose `git_path` is A's. -/
theorem c1_to_file_merge (a b : IdfConfig) :
    (to_file a (some b)).idf_installed = a.idf_installed ++ b.idf_installed
    ∧ (to_file a (some b)).idf_selected_id = a.idf_selected_id
    ∧ (to_file a (some b)).git_path = a.git_path := by
  simp [to_file]

/-! ## List lemmas about first-match operations -/

theorem find?_append_cons_of_neg {α : Type} (q : α → Bool) (l₁ l₂ : List α) (x : α)
    (hx : q x = false) :
    List.find? q (l₁ ++ x :: l₂) = List.find? q (l₁ ++ l₂) := by
  induction l₁ with
  | nil => simp [List.find?_cons, hx]
  | cons a l ih => cases ha : q a <;> simp [List.find?_cons, ha, ih]

theorem find?_split {α : Type} (p : α → Bool) (l₁ l₂ : List α) (x : α)
    (h₁ : ∀ y ∈ l₁, p y = false) (hx : p x = true) :
    List.find? p (l₁ ++ x :: l₂) = some x := by
  induction l₁ with
  | nil => simp [List.find?_cons, hx]
  | cons a l ih =>
    have ha : p a = false := h₁ a (List.mem_cons_self a l)
    simp only [List.cons_append, List.find?_cons, ha, cond_false]
    exact ih (fun y hy => h₁ y (List.mem_cons_of_mem a hy))

theorem updateFirst_split {α : Type} (p : α → Bool) (f : α → α) (l₁ l₂ : List α) (x : α)
    (h₁ : ∀ y ∈ l₁, p y = false) (hx : p x = true) :
    updateFirst p f (l₁ ++ x :: l₂) = some (l₁ ++ f x :: l₂) := by
  induction l₁ with
  | nil => simp [updateFirst, hx]
  | cons a l ih =>
    have ha : p a = false := h₁ a (List.mem_cons_self a l)
    have ih' := ih (fun y hy => h₁ y (List.mem_cons_of_mem a hy))
    simp [updateFirst, ha, ih']

theorem removeFirst_split {α : Type} (p : α → Bool) (l₁ l₂ : List α) (x : α)
    (h₁ : ∀ y ∈ l₁, p y = false) (hx : p x = true) :
    removeFirst p (l₁ ++ x :: l₂) = some (x, l₁ ++ l₂) := by
  induction l₁ with
  | nil => simp [removeFirst, hx]
  | cons a l ih =>
    have ha : p a = false := h₁ a (List.mem_cons_self a l)
    have ih' := ih (fun y hy => h₁ y (List.mem_cons_of_mem a hy))
    simp [removeFirst, ha, ih']

theorem updateFirst_eq_none {α : Type} (p : α → Bool) (f : α → α) (l : List α)
    (h : ∀ y ∈ l, p y = false) : updateFirst p f l = none := by
  induction l with
  | nil => rfl
  | cons a xs ih =>
    have ha : p a = false := h a (List.mem_cons_self a xs)
    have ih' := ih (fun y hy => h y (List.mem_cons_of_mem a hy))
    simp [updateFirst, ha, ih']

theorem removeFirst_some_decomp {α : Type} (p : α → Bool) (l : List α) (x : α)
    (rest : List α) (h : removeFirst p l = some (x, rest)) :
    ∃ l₁ l₂, l = l₁ ++ x :: l₂ ∧ rest = l₁ ++ l₂ ∧ p x = true ∧ ∀ y ∈ l₁, p y = false := by
  induction l generalizing rest with
  | nil => simp [removeFirst] at h
  | cons a xs ih =>
    by_cases hpa : p a = true
    · simp only [removeFirst, if_pos hpa, Option.some.injEq, Prod.mk.injEq] at h
      exact ⟨[], xs, by simp [h.1], by simp [h.2], h.1 ▸ hpa, by simp⟩
    · have hpa' : p a = false := by simpa using hpa
      simp only [removeFirst, if_neg hpa, Option.map_eq_some'] at h
      obtain ⟨⟨y, ys⟩, hys, hmk⟩ := h
      injection hmk with hy hrest
      subst hy
      obtain ⟨l₁, l₂, hl, hr, hpx, hnone⟩ := ih ys hys
      refine ⟨a :: l₁, l₂, by simp [hl], by simp [← hrest, hr], hpx, ?_⟩
      intro z hz
      rcases List.mem_cons.mp hz with rfl | hz'
      · exact hpa'
      · exact hnone z hz'

/-! ## C2: removal and the selected installation -/

/-- An installation whose *name* shadows another installation's *id*. -/
def installShadow : IdfInstallation :=
  { activation_script := "/tmp/j/activate.sh", id := "idJ", idf_tools_path := "/tmp/j/tools",
    name := "idI", path := "/tmp/j/esp-idf", python := "/tmp/j/python" }

/-- The installation that is actually selected. -/
def installTarget : IdfInstallation :=
  { activation_script := "/tmp/i/activate.sh", id := "idI", idf_tools_path := "/tmp/i/tools",
    name := "target", path := "/tmp/i/esp-idf", python := "/tmp/i/python" }

def configShadow : IdfConfig :=
  { git_path := "/usr/bin/git", idf_installed := [installShadow, installTarget],
    idf_selected_id := "idI" }

/-- C2 counterexample: `installTarget` is in the registry and is the selected
installation (`idf_selected_id = installTarget.id`), and
`remove installTarget.id` returns `true` — yet `idf_selected_id` is NOT
cleared afterwards, because the matching rule (`id == ident || name == ident`)
removes `installShadow`, whose *name* equals `installTarget.id`, instead. -/
theorem c2_counterexample :
    installTarget ∈ configShadow.idf_installed
    ∧ configShadow.idf_selected_id = installTarget.id
    ∧ (remove_installation configShadow installTarget.id).2 = true
    ∧ ¬ ((remove_installation configShadow installTarget.id).1).idf_selected_id = "" := by
  decide

/-- C2 (amended): `remove` acts on the first installation `R` matching the
identifier by id *or name* (which need not be the installation whose id is
the identifier).  When such a match exists, `remove` returns `true`; if `R`'s
id equaled `idf_selected_id` the selection is cleared to the empty string,
otherwise `idf_selected_id` is unchanged and `get_selected_installation`
returns the prior selection.  When no installation matches, `remove` returns
`false` and the registry is unchanged. -/
theorem c2_remove_selected (config : IdfConfig) (identifier : String) :
    (∀ R rest, removeFirst (matchesIdent identifier) config.idf_installed = some (R, rest) →
      (remove_installation config identifier).2 = true
      ∧ (config.idf_selected_id = R.id →
          ((remove_installation config identifier).1).idf_selected_id = "")
      ∧ (config.idf_selected_id ≠ R.id →
          ((remove_installation config identifier).1).idf_selected_id = config.idf_selected_id
          ∧ get_selected_installation (remove_installation config identifier).1
              = get_selected_installation config))
    ∧ (removeFirst (matchesIdent identifier) config.idf_installed = none →
        remove_installation config identifier = (config, false)) := by
  constructor
  · intro R rest h
    refine ⟨by simp [remove_installation, h], ?_, ?_⟩
    · intro hsel
      simp [remove_installation, h, hsel]
    · intro hsel
      have hbeq : (config.idf_selected_id == R.id) = false := by
        simpa [beq_iff_eq] using hsel
      refine ⟨by simp [remove_installation, h, hbeq], ?_⟩
      obtain ⟨l₁, l₂, hl, hr, _, _⟩ :=
        removeFirst_some_decomp (matchesIdent identifier) config.idf_installed R rest h
      have hRid : (R.id == config.idf_selected_id) = false := by
        simpa [beq_iff_eq] using fun hc => hsel hc.symm
      simp only [get_selected_installation, remove_installation, h, hbeq, if_neg]
      rw [hl, hr]
      exact (find?_append_cons_of_neg _ l₁ l₂ R hRid).symm
  · intro h
    simp [remove_installation, h]

/-- C2 witness: at the two-installation registry `configA`-with-`configB`'s
entry, removing by the selected id clears the selection, and removing the
non-selected entry keeps both the selection and `get_selected_installation`. -/
theorem c2_remove_selected_witness :
    ((remove_installation
        { git_path := "/usr/bin/git",
          idf_installed := [sampleInstallA, sampleInstallB],
          idf_selected_id := "idA" } "idA").1).idf_selected_id = ""
    ∧ ((remove_installation
        { git_path := "/usr/bin/git",
          idf_installed := [sampleInstallA, sampleInstallB],
          idf_selected_id := "idA" } "idB").1).idf_selected_id = "idA" := by
  constructor
  · exact ((c2_remove_selected
      { git_path := "/usr/bin/git",
        idf_installed := [sampleInstallA, sampleInstallB],
        idf_selected_id := "idA" } "idA").1 sampleInstallA [sampleInstallB]
      (by decide)).2.1 (by decide)
  · exact (((c2_remove_selected
      { git_path := "/usr/bin/git",
        idf_installed := [sampleInstallA, sampleInstallB],
        idf_selected_id := "idA" } "idB").1 sampleInstallB [sampleInstallA]
      (by decide)).2.2 (by decide)).1

/-! ## C10: all three operations act on the first match only -/

/-- C10: when the installations list splits as `l₁ ++ x :: l₂` with no match
in `l₁` and `x` matching the identifier (by id or by name), `select` sets
`idf_selected_id` to `x.id` leaving the list untouched, `rename` rewrites
exactly `x`'s name leaving `l₁` and `l₂` untouched, and `remove` deletes
exactly `x` leaving `l₁ ++ l₂` — every other installation is unchanged. -/
theorem c10_first_match (config : IdfConfig) (identifier new_name : String)
    (l₁ l₂ : List IdfInstallation) (x : IdfInstallation)
    (hsplit : config.idf_installed = l₁ ++ x :: l₂)
    (h₁ : ∀ y ∈ l₁, matchesIdent identifier y = false)
    (hx : matchesIdent identifier x = true) :
    select_installation config identifier = ({ config with idf_selected_id := x.id }, true)
    ∧ update_installation_name config identifier new_name
        = ({ config with idf_installed := l₁ ++ { x with name := new_name } :: l₂ }, true)
    ∧ remove_installation config identifier
        = ({ config with
              idf_installed := l₁ ++ l₂,
              idf_selected_id :=
                if config.idf_selected_id == x.id then "" else config.idf_selected_id },
            true) := by
  refine ⟨?_, ?_, ?_⟩
  · have h := find?_split (matchesIdent identifier) l₁ l₂ x h₁ hx
    simp [select_installation, hsplit, h]
  · have h := updateFirst_split (matchesIdent identifier)
      (fun install => { install with name := new_name }) l₁ l₂ x h₁ hx
    simp [update_installation_name, hsplit, h]
  · have h := removeFirst_split (matchesIdent identifier) l₁ l₂ x h₁ hx
    simp [remove_installation, hsplit, h]

/-- C10 witness: in the shadowed registry, all three operations applied with
identifier `"idI"` act on `installShadow` (the first match, which matches by
name) and leave `installTarget` alone. -/
theorem c10_first_match_witness :
    select_installation configShadow "idI"
      = ({ configShadow with idf_selected_id := "idJ" }, true)
    ∧ update_installation_name configShadow "idI" "renamed"
      = ({ configShadow with
            idf_installed := [{ installShadow with name := "renamed" }, installTarget] },
          true)
    ∧ remove_installation configShadow "idI"
      = ({ configShadow with idf_installed := [installTarget] }, true) := by
  have h := c10_first_match configShadow "idI" "renamed" [] [installTarget] installShadow
    (by decide) (by decide) (by decide)
  refine ⟨?_, ?_, ?_⟩
  · exact h.1
  · exact h.2.1
  · rw [h.2.2]
    decide

/-! ## C9: idempotence of select and rename -/

/-- Two distinct installations sharing the name `"x"`. -/
def installDup1 : IdfInstallation :=
  { activation_script := "/tmp/1/activate.sh", id := "id1", idf_tools_path := "/tmp/1/tools",
    name := "x", path := "/tmp/1/esp-idf", python := "/tmp/1/python" }

def installDup2 : IdfInstallation :=
  { activation_script := "/tmp/2/activate.sh", id := "id2", idf_tools_path := "/tmp/2/tools",
    name := "x", path := "/tmp/2/esp-idf", python := "/tmp/2/python" }

def configDup : IdfConfig :=
  { git_path := "/usr/bin/git", idf_installed := [installDup1, installDup2],
    idf_selected_id := "id1" }

/-- C9 counterexample: `rename` is not idempotent.  With two installations
both named `"x"`, the first `rename("x", "y")` renames the first one; the
second call then matches the *second* installation (still named `"x"`) and
renames it too, so the end state after two calls differs from the state
after one call. -/
theorem c9_counterexample :
    (update_installation_name (update_installation_name configDup "x" "y").1 "x" "y").1
      ≠ (update_installation_name configDup "x" "y").1 := by
  decide

theorem updateFirst_rename_second (identifier new_name : String)
    (l l' : List IdfInstallation)
    (hcount : l.countP (matchesIdent identifier) ≤ 1)
    (h : updateFirst (matchesIdent identifier)
        (fun install => { install with name := new_name }) l = some l') :
    updateFirst (matchesIdent identifier)
        (fun install => { install with name := new_name }) l' = some l'
    ∨ updateFirst (matchesIdent identifier)
        (fun install => { install with name := new_name }) l' = none := by
  induction l generalizing l' with
  | nil => simp [updateFirst] at h
  | cons a xs ih =>
    by_cases hpa : matchesIdent identifier a = true
    · simp only [updateFirst, if_pos hpa, Option.some.injEq] at h
      subst h
      have hxs : xs.countP (matchesIdent identifier) = 0 := by
        simp only [List.countP_cons, hpa, if_pos] at hcount
        omega
      have hnone : updateFirst (matchesIdent identifier)
          (fun install => { install with name := new_name }) xs = none :=
        updateFirst_eq_none _ _ xs
          (fun y hy => by
            have := List.countP_eq_zero.mp hxs y hy
            simpa using this)
      by_cases hfa : matchesIdent identifier { a with name := new_name } = true
      · left
        simp [updateFirst, hfa]
      · right
        have hfa' : matchesIdent identifier { a with name := new_name } = false := by
          simpa using hfa
        simp [updateFirst, hfa', hnone]
    · have hpa' : matchesIdent identifier a = false := by simpa using hpa
      simp only [updateFirst, hpa', Bool.false_eq_true, if_false,
        Option.map_eq_some'] at h
      obtain ⟨ys, hys, rfl⟩ := h
      have hc : xs.countP (matchesIdent identifier) ≤ 1 := by
        simp only [List.countP_cons, hpa'] at hcount
        omega
      rcases ih ys hc hys with hsome | hnone
      · left
        simp [updateFirst, hpa', hsome]
      · right
        simp [updateFirst, hpa', hnone]

/-- C9 (amended): `select` is idempotent on the registry state for every
registry and identifier.  `rename` is idempotent whenever at most one
installation matches the identifier; in general a second call can rename a
further installation that also matches (see the counterexample), because the
first call changed the first match's name. -/
theorem c9_select_rename_idem (config : IdfConfig) (identifier new_name : String) :
    (select_installation (select_installation config identifier).1 identifier).1
      = (select_installation config identifier).1
    ∧ (config.idf_installed.countP (matchesIdent identifier) ≤ 1 →
        (update_installation_name
            (update_installation_name config identifier new_name).1 identifier new_name).1
          = (update_installation_name config identifier new_name).1) := by
  constructor
  · cases h : config.idf_installed.find? (matchesIdent identifier) with
    | none => simp [select_installation, h]
    | some install => simp [select_installation, h]
  · intro hcount
    cases h : updateFirst (matchesIdent identifier)
        (fun install => { install with name := new_name }) config.idf_installed with
    | none => simp [update_installation_name, h]
    | some l' =>
      rcases updateFirst_rename_second identifier new_name config.idf_installed l'
          hcount h with hsome | hnone
      · simp [update_installation_name, h, hsome]
      · simp [update_installation_name, h, hnone]

/-- C9 witness: on the one-installation registry `configA`, selecting twice
equals selecting once, and (the match being unique) renaming twice equals
renaming once. -/
theorem c9_select_rename_idem_witness :
    (select_installation (select_installation configA "idA").1 "idA").1
      = (select_installation configA "idA").1
    ∧ (update_installation_name
          (update_installation_name configA "nameA" "fresh").1 "nameA" "fresh").1
        = (update_installation_name configA "nameA" "fresh").1 :=
  ⟨(c9_select_rename_idem configA "idA" "unused").1,
   (c9_select_rename_idem configA "nameA" "fresh").2 (by decide)⟩

/-! ## JSON wire format (`serde_json` round trip, `src/idf_config.rs`) -/

/-- JSON values as produced/consumed for the registry file (strings, arrays
and objects suffice for the `IdfConfig` wire format). -/
inductive Json where
  | str (s : String)
  | arr (elems : List Json)
  | obj (fields : List (String × Json))

/-- Serialization of one installation: serde emits the fields in declaration
order under their `#[serde(rename = ...)]` wire names. -/
def installationToJson (install : IdfInstallation) : Json :=
  Json.obj [("activationScript", Json.str install.activation_script),
            ("id", Json.str install.id),
            ("idfToolsPath", Json.str install.idf_tools_path),
            ("name", Json.str install.name),
            ("path", Json.str install.path),
            ("python", Json.str install.python)]

/-- Serialization of the registry (`serde_json::to_string(self)`). -/
def configToJson (config : IdfConfig) : Json :=
  Json.obj [("gitPath", Json.str config.git_path),
            ("idfInstalled", Json.arr (config.idf_installed.map installationToJson)),
            ("idfSelectedId", Json.str config.idf_selected_id)]

def asString : Json → Option String
  | Json.str s => some s
  | Json.arr _ => none
  | Json.obj _ => none

/-- Partially-filled fields of an installation during deserialization. -/
structure InstSlots where
  activationScript : Option String
  idField : Option String
  idfToolsPath : Option String
  nameField : Option String
  pathField : Option String
  pythonField : Option String

def emptyInstSlots : InstSlots := ⟨none, none, none, none, none, none⟩

/-- One map entry of an installation object, serde-style: a known key fills
its slot (duplicate key or wrong value type is an error), an unknown key is
ignored. -/
def instStep (slots : InstSlots) (field : String × Json) : Option InstSlots :=
  if field.1 = "activationScript" then
    match slots.activationScript with
    | some _ => none
    | none => (asString field.2).map (fun s => { slots with activationScript := some s })
  else if field.1 = "id" then
    match slots.idField with
    | some _ => none
    | none => (asString field.2).map (fun s => { slots with idField := some s })
  else if field.1 = "idfToolsPath" then
    match slots.idfToolsPath with
    | some _ => none
    | none => (asString field.2).map (fun s => { slots with idfToolsPath := some s })
  else if field.1 = "name" then
    match slots.nameField with
    | some _ => none
    | none => (asString field.2).map (fun s => { slots with nameField := some s })
  else if field.1 = "path" then
    match slots.pathField with
    | some _ => none
    | none => (asString field.2).map (fun s => { slots with pathField := some s })
  else if field.1 = "python" then
    match slots.pythonField with
    | some _ => none
    | none => (asString field.2).map (fun s => { slots with pythonField := some s })
  else some slots

/-- Deserialization of one installation object; every field is required. -/
def parseInstallation (j : Json) : Option IdfInstallation :=
  match j with
  | Json.obj fields =>
    match fields.foldlM instStep emptyInstSlots with
    | some slots =>
      match slots.activationScript, slots.idField, slots.idfToolsPath,
          slots.nameField, slots.pathField, slots.pythonField with
      | some a, some i, some t, some n, some p, some py =>
          some ⟨a, i, t, n, p, py⟩
      | _, _, _, _, _, _ => none
    | none => none
  | _ => none

/-- Deserialization of a sequence of installation objects (serde's sequence
visitor: elementwise, failing on the first bad element). -/
def parseInstallations : List Json → Option (List IdfInstallation)
  | [] => some []
  | j :: rest =>
      (parseInstallation j).bind (fun i => (parseInstallations rest).map (fun l => i :: l))

/-- Partially-filled fields of the registry during deserialization. -/
structure ConfigSlots where
  gitPath : Option String
  idfInstalled : Option (List IdfInstallation)
  idfSelectedId : Option String

def emptyConfigSlots : ConfigSlots := ⟨none, none, none⟩

def configStep (slots : ConfigSlots) (field : String × Json) : Option ConfigSlots :=
  if field.1 = "gitPath" then
    match slots.gitPath with
    | some _ => none
    | none => (asString field.2).map (fun s => { slots with gitPath := some s })
  else if field.1 = "idfInstalled" then
    match slots.idfInstalled with
    | some _ => none
    | none =>
      match field.2 with
      | Json.arr elems =>
          (parseInstallations elems).map (fun l => { slots with idfInstalled := some l })
      | _ => none
  else if field.1 = "idfSelectedId" then
    match slots.idfSelectedId with
    | some _ => none
    | none => (asString field.2).map (fun s => { slots with idfSelectedId := some s })
  else some slots

/-- Deserialization of the registry (`serde_json::from_str`). -/
def parseConfig (j : Json) : Option IdfConfig :=
  match j with
  | Json.obj fields =>
    match fields.foldlM configStep emptyConfigSlots with
    | some slots =>
      match slots.gitPath, slots.idfInstalled, slots.idfSelectedId with
      | some g, some l, some s => some ⟨g, l, s⟩
      | _, _, _ => none
    | none => none
  | _ => none

/-- `IdfConfig::from_file`: read the file (error when missing) and parse. -/
def from_file (file : Option Json) : Option IdfConfig :=
  file.bind parseConfig

/-- `IdfConfig::to_file` at the file level: with no existing file the
in-memory registry is serialized as is; with an existing file its content is
parsed first and merged per `to_file` (parse failure propagates). -/
def to_file_json (self : IdfConfig) (existingFile : Option Json) : Option Json :=
  match existingFile with
  | none => some (configToJson (to_file self none))
  | some j => (parseConfig j).map (fun existing => configToJson (to_file self (some existing)))

theorem parseInstallation_round (install : IdfInstallation) :
    parseInstallation (installationToJson install) = some install := rfl

theorem parseInstallations_round (l : List IdfInstallation) :
    parseInstallations (l.map installationToJson) = some l := by
  induction l with
  | nil => rfl
  | cons x xs ih => simp [parseInstallations, parseInstallation_round, ih]

theorem parseConfig_round (config : IdfConfig) :
    parseConfig (configToJson config) = some config := by
  simp [configToJson, parseConfig, List.foldlM, configStep, emptyConfigSlots, asString,
    parseInstallations_round]

/-! ## C8: load → persist (fresh path) → load round trip -/

/-- C8: loading a valid registry JSON document, persisting the result to a
path with no existing file, and loading again yields a registry structurally
equal to the first load — same `git_path`, same installations in the same
order with all fields equal, and the same `idf_selected_id` (the empty
string round-trips as the empty string). -/
theorem c8_round_trip (j : Json) (config : IdfConfig)
    (_h : from_file (some j) = some config) :
    from_file (to_file_json config none) = some config := by
  simp [from_file, to_file_json, to_file, parseConfig_round]

/-- A hand-written registry document: fields out of declaration order plus an
unknown field, exercising the parser rather than the serializer. -/
def sampleJson : Json :=
  Json.obj [("idfSelectedId", Json.str "idA"),
            ("gitPath", Json.str "/usr/bin/gitA"),
            ("comment", Json.str "ignored by serde"),
            ("idfInstalled", Json.arr [installationToJson sampleInstallA])]

/-- C8 witness: the round trip at the concrete document `sampleJson`, whose
load yields `configA`. -/
theorem c8_round_trip_witness :
    from_file (to_file_json configA none) = some configA :=
  c8_round_trip sampleJson configA rfl

/-! ## C3: `remove_single_idf_version` (`src/version_manager.rs`) -/

/-- The externally visible steps of `remove_single_idf_version`, in program
order. -/
inductive RmAction where
  | deleteFolder
  | deleteScript
  | removeFromRegistry
  | persist
deriving DecidableEq, Repr

inductive RemoveVersionErr where
  | notInstalled
  | folderRemoveFailed
  | scriptRemoveFailed
  | registryRemoveFailed
deriving DecidableEq, Repr

/-- `remove_single_idf_version`: look the identifier up in the loaded config;
delete the installation folder, then the activation script
(`remove_directory_all`, outcomes `folderOk` / `scriptOk`), then remove the
entry from the registry and persist with `to_file`.  Returns the attempted
actions in order together with the result; each `match ... Err` in the source
returns the error immediately. -/
def remove_single_idf_version (config : IdfConfig) (identifier : String)
    (folderOk scriptOk : Bool) :
    List RmAction × Except RemoveVersionErr (String × IdfConfig) :=
  match config.idf_installed.find? (matchesIdent identifier) with
  | none => ([], Except.error RemoveVersionErr.notInstalled)
  | some _ =>
    if folderOk then
      if scriptOk then
        match remove_installation config identifier with
        | (newConfig, true) =>
            ([RmAction.deleteFolder, RmAction.deleteScript, RmAction.removeFromRegistry,
              RmAction.persist],
             Except.ok ("Version " ++ identifier ++ " removed", newConfig))
        | (_, false) =>
            ([RmAction.deleteFolder, RmAction.deleteScript, RmAction.removeFromRegistry],
             Except.error RemoveVersionErr.registryRemoveFailed)
      else
        ([RmAction.deleteFolder, RmAction.deleteScript],
         Except.error RemoveVersionErr.scriptRemoveFailed)
    else
      ([RmAction.deleteFolder], Except.error RemoveVersionErr.folderRemoveFailed)

/-- C3 counterexample: when deleting the installation folder fails, the
function returns the disk error at once — the action trace at this concrete
input is just `[deleteFolder]`: the registry removal is never attempted and
the registry file is never persisted, contrary to the claim. -/
theorem c3_counterexample :
    (remove_single_idf_version configA "idA" false true).1 = [RmAction.deleteFolder]
    ∧ (remove_single_idf_version configA "idA" false true).2
        = Except.error RemoveVersionErr.folderRemoveFailed
    ∧ RmAction.removeFromRegistry ∉ (remove_single_idf_version configA "idA" false true).1
    ∧ RmAction.persist ∉ (remove_single_idf_version configA "idA" false true).1 := by
  refine ⟨rfl, rfl, ?_, ?_⟩ <;> decide

theorem removeFirst_eq_none_iff {α : Type} (p : α → Bool) (l : List α) :
    removeFirst p l = none ↔ List.find? p l = none := by
  induction l with
  | nil => simp [removeFirst]
  | cons a xs ih =>
    by_cases hpa : p a = true
    · simp [removeFirst, List.find?_cons, hpa]
    · have hpa' : p a = false := by simpa using hpa
      simp [removeFirst, List.find?_cons, hpa', ih]

/-- C3 (amended): for an installed identifier, a failure deleting the
installation folder aborts `remove_single_idf_version` right away with the
folder error and a trace of `[deleteFolder]` only; a failure deleting the
activation script aborts with the script error after `[deleteFolder,
deleteScript]`; the registry entry is removed and the registry file persisted
only when both disk deletions succeed. -/
theorem c3_disk_failure_aborts (config : IdfConfig) (identifier : String)
    (install : IdfInstallation)
    (hfind : config.idf_installed.find? (matchesIdent identifier) = some install) :
    remove_single_idf_version config identifier false true
      = ([RmAction.deleteFolder], Except.error RemoveVersionErr.folderRemoveFailed)
    ∧ remove_single_idf_version config identifier false false
      = ([RmAction.deleteFolder], Except.error RemoveVersionErr.folderRemoveFailed)
    ∧ remove_single_idf_version config identifier true false
      = ([RmAction.deleteFolder, RmAction.deleteScript],
         Except.error RemoveVersionErr.scriptRemoveFailed)
    ∧ (remove_single_idf_version config identifier true true).1
      = [RmAction.deleteFolder, RmAction.deleteScript, RmAction.removeFromRegistry,
         RmAction.persist] := by
  refine ⟨by simp [remove_single_idf_version, hfind],
          by simp [remove_single_idf_version, hfind],
          by simp [remove_single_idf_version, hfind], ?_⟩
  have hrf : removeFirst (matchesIdent identifier) config.idf_installed ≠ none := by
    intro hnone
    rw [removeFirst_eq_none_iff, hfind] at hnone
    exact Option.noConfusion hnone
  cases hr : removeFirst (matchesIdent identifier) config.idf_installed with
  | none => exact absurd hr hrf
  | some r => simp [remove_single_idf_version, hfind, remove_installation, hr]

/-- C3 witness: the amended behavior evaluated on the one-entry registry
`configA`. -/
theorem c3_disk_failure_aborts_witness :
    remove_single_idf_version configA "idA" false true
      = ([RmAction.deleteFolder], Except.error RemoveVersionErr.folderRemoveFailed)
    ∧ (remove_single_idf_version configA "idA" true true).1
      = [RmAction.deleteFolder, RmAction.deleteScript, RmAction.removeFromRegistry,
         RmAction.persist] :=
  ⟨(c3_disk_failure_aborts configA "idA" sampleInstallA rfl).1,
   (c3_disk_failure_aborts configA "idA" sampleInstallA rfl).2.2.2⟩

/-! ## C4: `verify_file_checksum` (`src/lib.rs`) -/

/-- The chunked read loop: concatenate chunk contents, propagating the first
read error (`file.read(&mut buffer)?`). -/
def readAll : List (Except Unit (List Nat)) → Except Unit (List Nat)
  | [] => Except.ok []
  | Except.error e :: _ => Except.error e
  | Except.ok chunk :: rest => (readAll rest).map (fun bytes => chunk ++ bytes)

/-- `verify_file_checksum`, parameterized by the digest function (the SHA-256
of the `sha2` crate): a missing file short-circuits to `Ok(false)`; an
existing file is read chunkwise, read errors propagate, and otherwise the
hex digest is compared with the expected string. -/
def verify_file_checksum (hash : List Nat → String) (expected_checksum : String)
    (file : Option (List (Except Unit (List Nat)))) : Except Unit Bool :=
  match file with
  | none => Except.ok false
  | some chunks =>
    match readAll chunks with
    | Except.error e => Except.error e
    | Except.ok bytes => Except.ok (hash bytes == expected_checksum)

/-- C4: for every digest function and expected checksum, a nonexistent file
yields `Ok(false)`, never an error; and an I/O error is returned only when
the file exists and reading it failed. -/
theorem c4_verify_missing_file (hash : List Nat → String) (expected_checksum : String) :
    verify_file_checksum hash expected_checksum none = Except.ok false
    ∧ (∀ file e, verify_file_checksum hash expected_checksum file = Except.error e →
        ∃ chunks, file = some chunks ∧ readAll chunks = Except.error e) := by
  refine ⟨rfl, ?_⟩
  intro file e h
  match file with
  | none => simp [verify_file_checksum] at h
  | some chunks =>
    refine ⟨chunks, rfl, ?_⟩
    cases hr : readAll chunks with
    | error e' => cases e; cases e'; rfl
    | ok bytes => simp [verify_file_checksum, hr] at h

/-- C4 witness: the nonexistent-file case at a concrete digest function, and
the error case at a one-chunk file whose read fails. -/
theorem c4_verify_missing_file_witness :
    verify_file_checksum (fun _ => "deadbeef") "deadbeef" none = Except.ok false
    ∧ ∃ chunks, (some [Except.error ()] : Option (List (Except Unit (List Nat))))
        = some chunks ∧ readAll chunks = Except.error () :=
  ⟨(c4_verify_missing_file (fun _ => "deadbeef") "deadbeef").1,
   (c4_verify_missing_file (fun _ => "deadbeef") "deadbeef").2 (some [Except.error ()]) () rfl⟩

/-! ## C5: `shallow_clone` (`src/lib.rs`) -/

/-- The git operations performed by `shallow_clone`, in program order. -/
inductive GitAction where
  | setDepth (depth : Nat)
  | setBranchArg (branch : String)
  | cloneRepo (url : String)
  | findTagRef (tag : String)
  | peelTagToCommit (tag : String)
  | checkoutTagCommit (tag : String)
  | setHeadDetached (tag : String)
  | revparseOriginBranch (branch : String)
  | checkoutBranchTip (branch : String)
  | setHeadBranch (branch : String)
  | fetchSubmodules
deriving DecidableEq, Repr

/-- `shallow_clone` as its trace of git operations on the success path:
`fo.depth(1)` exactly when `tag.is_none()`; the builder gets the branch
argument when a branch is given; after `builder.clone`, a tag is resolved
(`find_reference`, `peel`), its commit checked out and HEAD detached; a
branch is revparsed as `origin/<branch>`, its tip checked out and HEAD set
to the branch; submodules are fetched when requested. -/
def shallow_clone (url : String) (branch tag : Option String)
    (recurse_submodules : Bool) : List GitAction :=
  (if tag.isNone then [GitAction.setDepth 1] else [])
  ++ (match branch with
      | some b => [GitAction.setBranchArg b]
      | none => [])
  ++ [GitAction.cloneRepo url]
  ++ (match tag with
      | some t => [GitAction.findTagRef t, GitAction.peelTagToCommit t,
                   GitAction.checkoutTagCommit t, GitAction.setHeadDetached t]
      | none => [])
  ++ (match branch with
      | some b => [GitAction.revparseOriginBranch b, GitAction.checkoutBranchTip b,
                   GitAction.setHeadBranch b]
      | none => [])
  ++ (if recurse_submodules then [GitAction.fetchSubmodules] else [])

/-- The clone selector as the callers use it (`get_esp_idf_by_tag_name`):
a tag maps to `(branch = None, tag = Some t)`, no tag maps to the default
branch `master`; `get_rustpython_fork` passes a named branch. -/
inductive CloneSelector where
  | defaultBranch
  | namedBranch (branch : String)
  | namedTag (tag : String)
deriving DecidableEq, Repr

def selectorArgs : CloneSelector → Option String × Option String
  | CloneSelector.defaultBranch => (some "master", none)
  | CloneSelector.namedBranch b => (some b, none)
  | CloneSelector.namedTag t => (none, some t)

/-- C5: the fetch is depth-limited to 1 exactly when the selector carries no
tag (named or default branch); a tag selector applies no depth limit and,
after the transfer (`cloneRepo`), resolves the tag reference to its commit
and checks it out detached; a branch selector checks out that branch's tip
and sets HEAD to the branch. -/
theorem c5_shallow_clone_selector (url : String) (sel : CloneSelector) (recurse : Bool) :
    (GitAction.setDepth 1
        ∈ shallow_clone url (selectorArgs sel).1 (selectorArgs sel).2 recurse
      ↔ (selectorArgs sel).2 = none)
    ∧ (∀ t, sel = CloneSelector.namedTag t →
        shallow_clone url (selectorArgs sel).1 (selectorArgs sel).2 recurse
          = [GitAction.cloneRepo url, GitAction.findTagRef t, GitAction.peelTagToCommit t,
             GitAction.checkoutTagCommit t, GitAction.setHeadDetached t]
            ++ (if recurse then [GitAction.fetchSubmodules] else []))
    ∧ (∀ b, (selectorArgs sel).1 = some b →
        shallow_clone url (selectorArgs sel).1 (selectorArgs sel).2 recurse
          = [GitAction.setDepth 1, GitAction.setBranchArg b, GitAction.cloneRepo url,
             GitAction.revparseOriginBranch b, GitAction.checkoutBranchTip b,
             GitAction.setHeadBranch b]
            ++ (if recurse then [GitAction.fetchSubmodules] else [])) := by
  cases sel with
  | defaultBranch =>
    refine ⟨by cases recurse <;> simp [shallow_clone, selectorArgs], ?_, ?_⟩
    · intro t ht
      exact absurd ht (by simp)
    · intro b hb
      have : b = "master" := by simpa [selectorArgs] using hb.symm
      subst this
      cases recurse <;> simp [shallow_clone, selectorArgs]
  | namedBranch branch =>
    refine ⟨by cases recurse <;> simp [shallow_clone, selectorArgs], ?_, ?_⟩
    · intro t ht
      exact absurd ht (by simp)
    · intro b hb
      have : b = branch := by simpa [selectorArgs] using hb.symm
      subst this
      cases recurse <;> simp [shallow_clone, selectorArgs]
  | namedTag tag =>
    refine ⟨by cases recurse <;> simp [shallow_clone, selectorArgs], ?_, ?_⟩
    · intro t ht
      have : t = tag := by simpa using ht.symm
      subst this
      cases recurse <;> simp [shallow_clone, selectorArgs]
    · intro b hb
      exact absurd hb (by simp [selectorArgs])

/-- C5 witness: the trace for a concrete tag selector has no depth limit and
resolves then detaches at the tag; the trace for the default branch is
depth-limited. -/
theorem c5_shallow_clone_selector_witness :
    shallow_clone "https://github.com/espressif/esp-idf.git"
        (selectorArgs (CloneSelector.namedTag "v5.4")).1
        (selectorArgs (CloneSelector.namedTag "v5.4")).2 false
      = [GitAction.cloneRepo "https://github.com/espressif/esp-idf.git",
         GitAction.findTagRef "v5.4", GitAction.peelTagToCommit "v5.4",
         GitAction.checkoutTagCommit "v5.4", GitAction.setHeadDetached "v5.4"] ++ []
    ∧ (GitAction.setDepth 1
        ∈ shallow_clone "https://github.com/espressif/esp-idf.git"
            (selectorArgs CloneSelector.defaultBranch).1
            (selectorArgs CloneSelector.defaultBranch).2 true
      ↔ (selectorArgs CloneSelector.defaultBranch).2 = none) :=
  ⟨(c5_shallow_clone_selector "https://github.com/espressif/esp-idf.git"
      (CloneSelector.namedTag "v5.4") false).2.1 "v5.4" rfl,
   (c5_shallow_clone_selector "https://github.com/espressif/esp-idf.git"
      CloneSelector.defaultBranch true).1⟩

/-! ## C6: `with_retry` (`src/utils.rs`) -/

/-- The retry loop body: call `f` at the current attempt index; a success
returns immediately; on an error, `attempt` is incremented and the loop exits
with that error once `attempt >= max_retries` — `rest` is the number of
further attempts still allowed (`max_retries - attempt - 1` in the source's
counter).  Returns the result together with the number of calls made. -/
def withRetryGo {ε α : Type} (f : Nat → Except ε α) (attempt rest : Nat) :
    Except ε α × Nat :=
  match f attempt with
  | Except.ok value => (Except.ok value, attempt + 1)
  | Except.error e =>
    match rest with
    | 0 => (Except.error e, attempt + 1)
    | rest' + 1 => withRetryGo f (attempt + 1) rest'

/-- `with_retry(f, max_retries)`: the i-th call of the `Fn` closure is
modelled as `f i`.  `max_retries - 1` further attempts are allowed after the
first call, so the closure runs `max(max_retries, 1)` times in the all-fail
case — one call happens even when `max_retries = 0`, because the counter is
checked only after a failure. -/
def with_retry {ε α : Type} (f : Nat → Except ε α) (max_retries : Nat) :
    Except ε α × Nat :=
  withRetryGo f 0 (max_retries - 1)

theorem withRetryGo_ok {ε α : Type} (f : Nat → Except ε α) (attempt rest : Nat) (v : α)
    (hf : f attempt = Except.ok v) :
    withRetryGo f attempt rest = (Except.ok v, attempt + 1) := by
  cases rest <;> unfold withRetryGo <;> rw [hf]

theorem withRetryGo_err_zero {ε α : Type} (f : Nat → Except ε α) (attempt : Nat) (e : ε)
    (hf : f attempt = Except.error e) :
    withRetryGo f attempt 0 = (Except.error e, attempt + 1) := by
  unfold withRetryGo
  rw [hf]

theorem withRetryGo_err_succ {ε α : Type} (f : Nat → Except ε α) (attempt rest' : Nat)
    (e : ε) (hf : f attempt = Except.error e) :
    withRetryGo f attempt (rest' + 1) = withRetryGo f (attempt + 1) rest' := by
  conv_lhs => unfold withRetryGo; rw [hf]

theorem withRetryGo_calls_le {ε α : Type} (f : Nat → Except ε α) (rest : Nat) :
    ∀ attempt, (withRetryGo f attempt rest).2 ≤ attempt + rest + 1 := by
  induction rest with
  | zero =>
    intro attempt
    cases hf : f attempt with
    | ok v => rw [withRetryGo_ok f attempt 0 v hf]
    | error e => rw [withRetryGo_err_zero f attempt e hf]
  | succ rest' ih =>
    intro attempt
    cases hf : f attempt with
    | ok v =>
      rw [withRetryGo_ok f attempt (rest' + 1) v hf]
      show attempt + 1 ≤ attempt + (rest' + 1) + 1
      omega
    | error e =>
      rw [withRetryGo_err_succ f attempt rest' e hf]
      have := ih (attempt + 1)
      omega

theorem withRetryGo_first_success {ε α : Type} (f : Nat → Except ε α) (errs : Nat → ε)
    (rest : Nat) :
    ∀ attempt k v, attempt ≤ k → k ≤ attempt + rest →
      (∀ i, i < k → f i = Except.error (errs i)) → f k = Except.ok v →
      withRetryGo f attempt rest = (Except.ok v, k + 1) := by
  induction rest with
  | zero =>
    intro attempt k v hak hka _herrs hok
    have heq : attempt = k := by omega
    subst heq
    exact withRetryGo_ok f attempt 0 v hok
  | succ rest' ih =>
    intro attempt k v hak hka herrs hok
    by_cases heq : attempt = k
    · subst heq
      exact withRetryGo_ok f attempt (rest' + 1) v hok
    · have herr : f attempt = Except.error (errs attempt) := herrs attempt (by omega)
      rw [withRetryGo_err_succ f attempt rest' (errs attempt) herr]
      exact ih (attempt + 1) k v (by omega) (by omega) herrs hok

theorem withRetryGo_all_fail {ε α : Type} (f : Nat → Except ε α) (errs : Nat → ε)
    (rest : Nat) :
    ∀ attempt, (∀ i, attempt ≤ i → i ≤ attempt + rest → f i = Except.error (errs i)) →
      withRetryGo f attempt rest
        = (Except.error (errs (attempt + rest)), attempt + rest + 1) := by
  induction rest with
  | zero =>
    intro attempt herrs
    have herr : f attempt = Except.error (errs attempt) := herrs attempt (by omega) (by omega)
    rw [withRetryGo_err_zero f attempt (errs attempt) herr]
    rfl
  | succ rest' ih =>
    intro attempt herrs
    have herr : f attempt = Except.error (errs attempt) := herrs attempt (by omega) (by omega)
    rw [withRetryGo_err_succ f attempt rest' (errs attempt) herr]
    have e1 : attempt + (rest' + 1) = attempt + 1 + rest' := by omega
    rw [e1]
    exact ih (attempt + 1) (fun i h1 h2 => herrs i (by omega) (by omega))

/-- C6 counterexample: with `max_attempts = 0` the operation is still called
once (the counter is only checked after a failed call), so "calls f up to
max_attempts times and no more" fails at this concrete input. -/
theorem c6_counterexample :
    ¬ ((with_retry (fun _ => (Except.error 7 : Except Nat Nat)) 0).2 ≤ 0) := by
  decide

/-- C6 (amended): `with_retry` calls the operation up to
`max(max_attempts, 1)` times — at least one call always happens, even with
`max_attempts = 0`.  It returns the first success immediately, after exactly
`k + 1` calls when the first success is at attempt `k`; and when every
allowed attempt fails it returns the error of the last attempt after exactly
`max(max_attempts, 1)` calls. -/
theorem c6_with_retry (ε α : Type) (f : Nat → Except ε α) (max_retries : Nat)
    (errs : Nat → ε) :
    (with_retry f max_retries).2 ≤ max max_retries 1
    ∧ (∀ k v, k < max max_retries 1 → (∀ i, i < k → f i = Except.error (errs i)) →
        f k = Except.ok v → with_retry f max_retries = (Except.ok v, k + 1))
    ∧ ((∀ i, i < max max_retries 1 → f i = Except.error (errs i)) →
        with_retry f max_retries
          = (Except.error (errs (max max_retries 1 - 1)), max max_retries 1)) := by
  have hmax : max max_retries 1 = max_retries - 1 + 1 := by omega
  refine ⟨?_, ?_, ?_⟩
  · have h := withRetryGo_calls_le f (max_retries - 1) 0
    have h2 : (with_retry f max_retries).2 ≤ 0 + (max_retries - 1) + 1 := h
    omega
  · intro k v hk herrs hok
    exact withRetryGo_first_success f errs (max_retries - 1) 0 k v (by omega)
      (by omega) herrs hok
  · intro herrs
    have h := withRetryGo_all_fail f errs (max_retries - 1) 0
      (fun i h1 h2 => herrs i (by omega))
    rw [Nat.zero_add] at h
    have e2 : max max_retries 1 - 1 = max_retries - 1 := by omega
    show withRetryGo f 0 (max_retries - 1)
      = (Except.error (errs (max max_retries 1 - 1)), max max_retries 1)
    rw [e2, hmax]
    exact h

/-- C6 witness: a concrete operation succeeding on its second call under
`max_attempts = 3` returns that success after two calls; a concrete
always-failing operation under `max_attempts = 2` returns the second
attempt's error after two calls. -/
theorem c6_with_retry_witness :
    with_retry (fun i => if i = 1 then (Except.ok 42 : Except Nat Nat) else Except.error i) 3
      = (Except.ok 42, 2)
    ∧ with_retry (fun i => (Except.error i : Except Nat Nat)) 2 = (Except.error 1, 2) :=
  ⟨(c6_with_retry Nat Nat
      (fun i => if i = 1 then (Except.ok 42 : Except Nat Nat) else Except.error i) 3
      (fun i => i)).2.1 1 42 (by decide)
      (fun i hi => by interval_cases i; rfl) rfl,
   (c6_with_retry Nat Nat (fun i => (Except.error i : Except Nat Nat)) 2
      (fun i => i)).2.2 (fun i hi => rfl)⟩

/-! ## C7: `download_file` progress events (`src/lib.rs`) -/

/-- `DownloadProgress` in `src/lib.rs`. -/
inductive DownloadEvent where
  | progress (downloaded total : Nat)
  | complete
  | error (msg : String)
deriving DecidableEq, Repr

/-- One iteration of the chunk loop: `response.chunk()` either fails, or
yields `len` bytes whose `file.write_all` succeeds or fails. -/
inductive ChunkStep where
  | chunkErr
  | chunk (len : Nat) (writeOk : Bool)
deriving DecidableEq, Repr

/-- The environment of one `download_file` run: whether the GET request
succeeds, the declared content length (if any), whether creating the
destination file succeeds, and the chunk outcomes. -/
structure DownloadEnv where
  getOk : Bool
  contentLength : Option Nat
  createOk : Bool
  chunks : List ChunkStep
deriving DecidableEq, Repr

/-- The chunk loop of `download_file`: on each chunk, `downloaded` is
increased by the chunk length, the chunk is written, and a
`Progress(downloaded, total)` event is sent; a chunk error or a write error
returns the I/O error immediately (no event).  Yields the events sent and
whether the loop finished normally. -/
def downloadLoop (total downloaded : Nat) : List ChunkStep → List DownloadEvent × Bool
  | [] => ([], true)
  | ChunkStep.chunkErr :: _ => ([], false)
  | ChunkStep.chunk len writeOk :: rest =>
    if writeOk then
      let next := downloadLoop total (downloaded + len) rest
      (DownloadEvent.progress (downloaded + len) total :: next.1, next.2)
    else ([], false)

/-- `download_file`: a failed GET returns an error with no event; a missing
content length sends one `Error` event and returns an error; a failed file
creation returns an error with no event; then the chunk loop runs and, on
normal completion, one `Complete` event is sent.  Yields the events sent on
the channel and whether the function returned `Ok`. -/
def download_file (env : DownloadEnv) : List DownloadEvent × Bool :=
  if env.getOk then
    match env.contentLength with
    | none => ([DownloadEvent.error "Failed to get content length"], false)
    | some total =>
      if env.createOk then
        let loop := downloadLoop total 0 env.chunks
        if loop.2 then (loop.1 ++ [DownloadEvent.complete], true) else (loop.1, false)
      else ([], false)
  else ([], false)

/-- The "bytes done" values of the progress events, in order. -/
def doneVals (events : List DownloadEvent) : List Nat :=
  events.filterMap (fun e => match e with
    | DownloadEvent.progress downloaded _ => some downloaded
    | _ => none)

/-- Terminal events: `Complete` or `Error`. -/
def isTerminalEvent : DownloadEvent → Bool
  | DownloadEvent.complete => true
  | DownloadEvent.error _ => true
  | DownloadEvent.progress _ _ => false

theorem downloadLoop_events_progress (chunks : List ChunkStep) :
    ∀ total downloaded e, e ∈ (downloadLoop total downloaded chunks).1 →
      isTerminalEvent e = false := by
  induction chunks with
  | nil =>
    intro total downloaded e he
    simp [downloadLoop] at he
  | cons step rest ih =>
    intro total downloaded e he
    cases step with
    | chunkErr => simp [downloadLoop] at he
    | chunk len writeOk =>
      cases writeOk with
      | false => simp [downloadLoop] at he
      | true =>
        simp only [downloadLoop, if_pos] at he
        rcases List.mem_cons.mp he with rfl | he'
        · rfl
        · exact ih total (downloaded + len) e he'

theorem downloadLoop_doneVals_mono (chunks : List ChunkStep) :
    ∀ total downloaded,
      List.Chain' (· ≤ ·) (doneVals (downloadLoop total downloaded chunks).1)
      ∧ ∀ x ∈ doneVals (downloadLoop total downloaded chunks).1, downloaded ≤ x := by
  induction chunks with
  | nil =>
    intro total downloaded
    simp [downloadLoop, doneVals]
  | cons step rest ih =>
    intro total downloaded
    cases step with
    | chunkErr => simp [downloadLoop, doneVals]
    | chunk len writeOk =>
      cases writeOk with
      | false => simp [downloadLoop, doneVals]
      | true =>
        obtain ⟨hchain, hbound⟩ := ih total (downloaded + len)
        have hd : doneVals (downloadLoop total downloaded
              (ChunkStep.chunk len true :: rest)).1
            = (downloaded + len)
              :: doneVals (downloadLoop total (downloaded + len) rest).1 := by
          simp [downloadLoop, doneVals]
        constructor
        · rw [hd]
          exact List.chain'_cons'.mpr
            ⟨fun y hy => hbound y (List.mem_of_mem_head? hy), hchain⟩
        · intro x hx
          rw [hd] at hx
          rcases List.mem_cons.mp hx with rfl | hx'
          · omega
          · have := hbound x hx'
            omega

/-- C7 counterexample: a run whose first chunk read fails sends no event at
all — the event sequence is empty, so it is not terminated by exactly one
terminal event (`Complete` or `Error`), contrary to the claim. -/
theorem c7_counterexample :
    (download_file ⟨true, some 1024, true, [ChunkStep.chunkErr]⟩).2 = false
    ∧ ¬ ((download_file ⟨true, some 1024, true,
          [ChunkStep.chunkErr]⟩).1.countP isTerminalEvent = 1) := by
  decide

/-- C7 (amended): the "bytes done" values of the progress events are
monotonically non-decreasing in every run.  On success exactly one terminal
event is sent and it is the final `Complete`.  On failure, `Complete` is
never sent and at most one terminal event occurs: exactly one `Error` event
when the content length was unavailable, and no terminal event at all for
every other failure (GET failure, file-creation failure, chunk read or write
failure). -/
theorem c7_download_events (env : DownloadEnv) :
    List.Chain' (· ≤ ·) (doneVals (download_file env).1)
    ∧ ((download_file env).2 = true →
        (download_file env).1.countP isTerminalEvent = 1
        ∧ (download_file env).1.getLast? = some DownloadEvent.complete)
    ∧ ((download_file env).2 = false →
        DownloadEvent.complete ∉ (download_file env).1
        ∧ (download_file env).1.countP isTerminalEvent
            = (if env.getOk = true ∧ env.contentLength = none then 1 else 0)) := by
  obtain ⟨getOk, contentLength, createOk, chunks⟩ := env
  cases getOk with
  | false =>
    refine ⟨by simp [download_file, doneVals], ?_, ?_⟩
    · intro h
      simp [download_file] at h
    · intro _
      simp [download_file]
  | true =>
    cases contentLength with
    | none =>
      refine ⟨by simp [download_file, doneVals], ?_, ?_⟩
      · intro h
        simp [download_file] at h
      · intro _
        simp [download_file, isTerminalEvent]
    | some total =>
      cases createOk with
      | false =>
        refine ⟨by simp [download_file, doneVals], ?_, ?_⟩
        · intro h
          simp [download_file] at h
        · intro _
          simp [download_file]
      | true =>
        have hprog := downloadLoop_events_progress chunks total 0
        have hmono := (downloadLoop_doneVals_mono chunks total 0).1
        have hcount : (downloadLoop total 0 chunks).1.countP isTerminalEvent = 0 :=
          List.countP_eq_zero.mpr (fun e he => by simp [hprog e he])
        have hnocomplete : DownloadEvent.complete ∉ (downloadLoop total 0 chunks).1 := by
          intro hmem
          have := hprog DownloadEvent.complete hmem
          simp [isTerminalEvent] at this
        cases hloop : (downloadLoop total 0 chunks).2 with
        | true =>
          refine ⟨?_, ?_, ?_⟩
          · have : doneVals (download_file ⟨true, some total, true, chunks⟩).1
                = doneVals (downloadLoop total 0 chunks).1 := by
              simp [download_file, hloop, doneVals, List.filterMap_append]
            rw [this]
            exact hmono
          · intro _
            constructor
            · simp [download_file, hloop, List.countP_append, hcount, isTerminalEvent]
            · simp [download_file, hloop]
          · intro h
            simp [download_file, hloop] at h
        | false =>
          refine ⟨?_, ?_, ?_⟩
          · have : doneVals (download_file ⟨true, some total, true, chunks⟩).1
                = doneVals (downloadLoop total 0 chunks).1 := by
              simp [download_file, hloop]
            rw [this]
            exact hmono
          · intro h
            simp [download_file, hloop] at h
          · intro _
            refine ⟨?_, ?_⟩
            · simpa [download_file, hloop] using hnocomplete
            · simp [download_file, hloop, hcount]

/-- C7 witness: a successful two-chunk run sends non-decreasing progress
values and ends in exactly one `Complete`. -/
theorem c7_download_events_witness :
    (download_file ⟨true, some 20, true,
        [ChunkStep.chunk 10 true, ChunkStep.chunk 10 true]⟩).1.countP isTerminalEvent = 1
    ∧ (download_file ⟨true, some 20, true,
        [ChunkStep.chunk 10 true, ChunkStep.chunk 10 true]⟩).1.getLast?
      = some DownloadEvent.complete :=
  (c7_download_events ⟨true, some 20, true,
    [ChunkStep.chunk 10 true, ChunkStep.chunk 10 true]⟩).2.1 rfl
